import Mathlib

/-!  Verification development for the Matrix script pipeline.

The line classifier is embedded from
src/kbac/loaders/matrix_script_loader.py (the loader the pipeline
imports; the antiguo variant under the same directory is dead code)
and the scene aggregator from
src/src/services/implementations/matrix_document_loader_service.py.

Lines are modelled as lists of characters.  Page text is split on the
newline character before classification, so a line never contains a
newline; the source document is ASCII, so the Python case and
whitespace predicates are modelled on their ASCII behaviour.  -/

namespace Kbac

/-- The whitespace class of Python regular expressions and of
str.strip: space, tab, newline, carriage return, vertical tab and
form feed.  -/
def pyIsSpaceChar (c : Char) : Bool :=
  c = ' ' || c = '\t' || c = '\n' || c = '\x0d' || c = '\x0b' || c = '\x0c'

/-- ASCII decimal digit, the regex class of digits.  -/
def isDigitChar (c : Char) : Bool :=
  '0' ≤ c && c ≤ '9'

/-- A cased character in the ASCII range (a letter).  -/
def isCasedChar (c : Char) : Bool :=
  ('A' ≤ c && c ≤ 'Z') || ('a' ≤ c && c ≤ 'z')

/-- An uppercase cased character.  -/
def isUpperChar (c : Char) : Bool :=
  'A' ≤ c && c ≤ 'Z'

/-- Python str.isupper: at least one cased character and every cased
character uppercase.  -/
def pyIsUpper (s : List Char) : Bool :=
  s.any isCasedChar && s.all (fun c => !isCasedChar c || isUpperChar c)

/-- Python str.strip with no argument: remove leading and trailing
whitespace.  -/
def pyStrip (s : List Char) : List Char :=
  ((s.dropWhile pyIsSpaceChar).reverse.dropWhile pyIsSpaceChar).reverse

/-- Boolean list-prefix test.  -/
def isPrefixList : List Char → List Char → Bool
  | [], _ => true
  | _ :: _, [] => false
  | a :: as, b :: bs => a = b && isPrefixList as bs

/-- Python substring containment, the operator in of str.  -/
def containsSub : List Char → List Char → Bool
  | [], pat => pat.isEmpty
  | c :: rest, pat => isPrefixList pat (c :: rest) || containsSub rest pat

/-- The five line tags of the LineItem model in the loader.  -/
inductive TextType where
  | location
  | description
  | character
  | dialog
  | raw
deriving DecidableEq

/-- LineItem of matrix_script_loader.py: page number, tag, text and
margin.  The pydantic model further validates that the text is
non-empty and the margin positive; those validations are stated as
theorems below rather than baked into the type.  -/
structure LineItem where
  page_number : Nat
  text_type : TextType
  text : List Char
  margin : Nat
deriving DecidableEq

/-- The configuration surface of MatrixScriptLoader: ignore tags and
the four margin sets.  Margin sets are carried as lists; only
membership is ever consulted.  -/
structure LoaderConfig where
  ignoread_tags : List (List Char)
  location_margins : List Nat
  description_margins : List Nat
  dialog_margins : List Nat
  character_margins : List Nat

/-- The default constructor arguments of MatrixScriptLoader.  -/
def defaultConfig : LoaderConfig where
  ignoread_tags :=
    ["FADE IN:".toList, "CONTINUED".toList, "OMITTED".toList,
     "THE MATRIX - Rev.".toList, "FADE OUT.".toList, "THE END".toList,
     "(MORE)".toList, "FADE TO BLACK.".toList]
  location_margins := [8, 9]
  description_margins := [8, 9]
  dialog_margins := [21, 30]
  character_margins := [32, 38, 39]

/-- The ignore-tag pre-filter of _parse_page_line: any tag occurring
as a substring of the line discards the line.  -/
def hasIgnoreTag (cfg : LoaderConfig) (line : List Char) : Bool :=
  cfg.ignoread_tags.any (fun tag => containsSub line tag)

/-!  The location pattern.

_get_location_text matches the anchored pattern

  group 1: an optional letter A or B, a nonempty digit run, then at
           least two whitespace characters (greedy),
  group 2: any characters (lazy),
  group 3: at least two whitespace characters, an optional letter A
           or B, a nonempty digit run, end of line.

The functions below reproduce the backtracking order of the engine:
the digit run of group 1 is forced maximal (a shorter run leaves a
digit where whitespace is required), its whitespace run is tried from
maximal length down to two, and for each such choice group 2 is tried
from shortest to longest.  -/

/-- Group 1 head: optional A or B followed by a nonempty digit run.
Returns the consumed length and the rest of the line.  -/
def locLeadNum : List Char → Option (Nat × List Char)
  | [] => none
  | c :: rest =>
    if c = 'A' || c = 'B' then
      if (rest.takeWhile isDigitChar).isEmpty then none
      else some (1 + (rest.takeWhile isDigitChar).length,
                 rest.dropWhile isDigitChar)
    else
      if ((c :: rest).takeWhile isDigitChar).isEmpty then none
      else some (((c :: rest).takeWhile isDigitChar).length,
                 (c :: rest).dropWhile isDigitChar)

/-- Whether a suffix is exactly group 3: at least two whitespace
characters, an optional A or B, then a nonempty digit run reaching
the end of the line.  -/
def tailEndMatch (t : List Char) : Bool :=
  let w := t.takeWhile pyIsSpaceChar
  let r := t.dropWhile pyIsSpaceChar
  2 ≤ w.length &&
    match r with
    | [] => false
    | c :: rest =>
      if c = 'A' || c = 'B' then !rest.isEmpty && rest.all isDigitChar
      else r.all isDigitChar

/-- The lazy group 2: the shortest prefix of the remainder whose
complement is group 3.  Returns the prefix.  -/
def lazyMid : List Char → List Char → Option (List Char)
  | acc, [] => if tailEndMatch [] then some acc.reverse else none
  | acc, c :: rest =>
    if tailEndMatch (c :: rest) then some acc.reverse
    else lazyMid (c :: acc) rest

/-- The whitespace run of group 1, tried greedily: j whitespace
characters first, backing off one at a time down to two.  Returns the
total group 1 length (the margin) and group 2.  -/
def locTry (plen : Nat) (spRun tl : List Char) : Nat → Option (Nat × List Char)
  | 0 => none
  | 1 => none
  | j + 2 =>
    match lazyMid [] (spRun.drop (j + 2) ++ tl) with
    | some mid => some (plen + (j + 2), mid)
    | none => locTry plen spRun tl (j + 1)

/-- The full location pattern match: group 1 length (the margin) and
the raw group 2.  -/
def getLocationMatch (line : List Char) : Option (Nat × List Char) :=
  match locLeadNum line with
  | none => none
  | some (plen, rest) =>
    let spRun := rest.takeWhile pyIsSpaceChar
    let tl := rest.dropWhile pyIsSpaceChar
    locTry plen spRun tl spRun.length

/-- _get_location_text: uppercase line, pattern match, margin in the
configured set; returns the trimmed middle group and the margin.  -/
def getLocationText (cfg : LoaderConfig) (line : List Char) :
    Option (List Char × Nat) :=
  if pyIsUpper line then
    match getLocationMatch line with
    | none => none
    | some (m, mid) =>
      if m ∈ cfg.location_margins then some (pyStrip mid, m) else none
  else none

/-- The pattern of the character, dialog and description rules: at
least two leading whitespace characters (greedy, hence the maximal
run) followed by the rest of the line.  Returns the run length (the
margin) and the rest.  -/
def matchTwoSpaces (line : List Char) : Option (Nat × List Char) :=
  if (line.takeWhile pyIsSpaceChar).length < 2 then none
  else some ((line.takeWhile pyIsSpaceChar).length,
             line.dropWhile pyIsSpaceChar)

/-- regex.sub removing a parenthetical: the single match of the
greedy pattern runs from the first opening parenthesis that has some
closing parenthesis after it, to the last closing parenthesis of the
line; after that point no closing parenthesis remains, so no second
match exists.  -/
def removeParens (s : List Char) : List Char :=
  let pre := s.takeWhile (fun c => c ≠ '(')
  let suf := (s.reverse.takeWhile (fun c => c ≠ ')')).reverse
  if pre.length + suf.length + 2 ≤ s.length then pre ++ suf else s

/-- _get_character_text: uppercase line, two-space pattern, margin in
the configured set; parentheticals removed, then trimmed.  -/
def getCharacterText (cfg : LoaderConfig) (line : List Char) :
    Option (List Char × Nat) :=
  if pyIsUpper line then
    match matchTwoSpaces line with
    | none => none
    | some (m, rest) =>
      if m ∈ cfg.character_margins then some (pyStrip (removeParens rest), m)
      else none
  else none

/-- _get_non_upper_text: two-space pattern with a caller-supplied
margin set; trimmed rest and margin.  -/
def getNonUpperText (margins : List Nat) (line : List Char) :
    Option (List Char × Nat) :=
  match matchTwoSpaces line with
  | none => none
  | some (m, rest) =>
    if m ∈ margins then some (pyStrip rest, m) else none

/-- _get_description_text.  -/
def getDescriptionText (cfg : LoaderConfig) (line : List Char) :
    Option (List Char × Nat) :=
  getNonUpperText cfg.description_margins line

/-- _get_dialog_text.  -/
def getDialogText (cfg : LoaderConfig) (line : List Char) :
    Option (List Char × Nat) :=
  getNonUpperText cfg.dialog_margins line

/-- One step of the classification chain of _parse_page_line: the
Python code tests the returned text for truthiness, so an empty text
falls through to the next rule exactly as a failed match does.  -/
def emitIf (tt : TextType) (page : Nat) (r : Option (List Char × Nat))
    (next : Option LineItem) : Option LineItem :=
  match r with
  | some (t, m) =>
    if t.isEmpty then next
    else some { page_number := page, text_type := tt, text := t, margin := m }
  | none => next

/-- _parse_page_line of matrix_script_loader.py: ignore-tag filter,
then location, character, dialog, description in that order, then the
fallback, which tags the stripped line as description with margin 1
when it is non-empty and discards it otherwise.  -/
def parsePageLine (cfg : LoaderConfig) (page : Nat) (line : List Char) :
    Option LineItem :=
  if hasIgnoreTag cfg line then none
  else
    emitIf TextType.location page (getLocationText cfg line)
      (emitIf TextType.character page (getCharacterText cfg line)
        (emitIf TextType.dialog page (getDialogText cfg line)
          (emitIf TextType.description page (getDescriptionText cfg line)
            (if (pyStrip line).isEmpty then none
             else some { page_number := page, text_type := TextType.description,
                         text := pyStrip line, margin := 1 }))))

/-!  The scene aggregator.

MatrixDocumentLoaderService.load_documents consumes the per-line
documents produced by the loader (text, tag and page number), assigns
a scene id to every line at or after the first location line, drops
the location lines themselves and the lines preceding the first
location, sorts stably by scene id (a no-op, since the ids are
assigned by a monotone counter), groups consecutive equal ids, and
emits one chunk per group.  The synthetic uuid and the collection
name attached to each chunk are environment data with no algorithmic
content and are not modelled.  -/

/-- One classified line as the aggregator receives it: the dumped
document of MatrixScriptLoader.load.  -/
structure ScriptDoc where
  text : List Char
  text_type : TextType
  page_number : Nat
deriving DecidableEq

/-- A line annotated with the location text and scene id written into
its metadata by the assignment loop.  -/
structure SDoc where
  doc : ScriptDoc
  location : List Char
  scene_id : Nat
deriving DecidableEq

/-- Truthiness of the current_location variable: a set, non-empty
string.  -/
def clocTruthy : Option (List Char) → Bool
  | some l => !l.isEmpty
  | none => false

/-- The annotation written by the assignment loop when
current_location is truthy: the current location and scene id.  -/
def annOf : Option (List Char) → Nat → Option (List Char × Nat)
  | some l, n => if l.isEmpty then none else some (l, n)
  | none, _ => none

/-- The assignment loop of load_documents: on a location line the
counter increments and current_location is replaced; every line is
then annotated with the current location and scene id provided
current_location is truthy.  -/
def assignScenes : List ScriptDoc → Nat → Option (List Char) →
    List (ScriptDoc × Option (List Char × Nat))
  | [], _, _ => []
  | d :: rest, sid, cloc =>
    if d.text_type = TextType.location then
      (d, annOf (some d.text) (sid + 1)) ::
        assignScenes rest (sid + 1) (some d.text)
    else
      (d, annOf cloc sid) :: assignScenes rest sid cloc

/-- docs_with_scene_id: the annotated lines that received a scene id,
without the location lines.  -/
def docsWithSceneId (docs : List ScriptDoc) : List SDoc :=
  (assignScenes docs 0 none).filterMap fun p =>
    match p.2 with
    | some (l, n) =>
      if p.1.text_type = TextType.location then none
      else some { doc := p.1, location := l, scene_id := n }
    | none => none

/-- Stable insertion for the sort by scene id: an element moves past
another only when the other has a strictly smaller key, so equal keys
keep their original order, as the stable sorted of Python does.  -/
def insertStable (x : SDoc) : List SDoc → List SDoc
  | [] => [x]
  | y :: ys => if y.scene_id < x.scene_id then y :: insertStable x ys
               else x :: y :: ys

/-- The sort by scene id preceding the groupby call.  -/
def sortBySceneId (l : List SDoc) : List SDoc :=
  l.foldr insertStable []

/-- One step of grouping: a line joins the first group when it has
the same key, and opens a new group in front otherwise.  -/
def groupCons (d : SDoc) : List (Nat × List SDoc) → List (Nat × List SDoc)
  | [] => [(d.scene_id, [d])]
  | (k, g) :: gs =>
    if k = d.scene_id then (k, d :: g) :: gs
    else (d.scene_id, [d]) :: (k, g) :: gs

/-- itertools.groupby keyed on the scene id: consecutive lines with
equal ids form one group, labelled with the id.  -/
def groupScenes : List SDoc → List (Nat × List SDoc)
  | [] => []
  | d :: rest => groupCons d (groupScenes rest)

/-- The expression current_char or Unknown of _format_scene_content:
Python or takes the second operand when the first is falsy.  -/
def ccOr : Option (List Char) → List Char
  | some c => if c.isEmpty then "Unknown".toList else c
  | none => "Unknown".toList

/-- The body loop of _format_scene_content: character lines update
the speaker, dialog lines render with the current speaker or Unknown,
description lines render with the fixed prefix, and every other tag
contributes nothing.  -/
def formatBody : Option (List Char) → List SDoc → List Char
  | _, [] => []
  | cc, d :: rest =>
    match d.doc.text_type with
    | TextType.character => formatBody (some d.doc.text) rest
    | TextType.dialog =>
        ccOr cc ++ ": ".toList ++ d.doc.text ++ '\n' :: formatBody cc rest
    | TextType.description =>
        "Scene description: ".toList ++ d.doc.text ++ '\n' :: formatBody cc rest
    | _ => formatBody cc rest

/-- _format_scene_content: the location header, the rendered body,
and a final strip.  The speaker state starts unset on every call,
hence once per scene.  -/
def formatSceneContent (docs : List SDoc) (location : List Char) : List Char :=
  pyStrip ("Location: ".toList ++ location ++ '\n' :: formatBody none docs)

/-- Page numbers of the lines of a group.  -/
def pageList (docs : List SDoc) : List Nat :=
  docs.map fun d => d.doc.page_number

/-- min over the page numbers with the empty-case sentinel of
_aggregate_metadata.  The source takes min of the sorted set of the
pages; the minimum of a set equals the minimum of the list.  -/
def listMinD : List Nat → Int
  | [] => -1
  | p :: ps => Int.ofNat (ps.foldl Nat.min p)

/-- max over the page numbers, as listMinD.  -/
def listMaxD : List Nat → Int
  | [] => -1
  | p :: ps => Int.ofNat (ps.foldl Nat.max p)

/-- Lexicographic comparison of strings by code point, the order of
the Python sorted call on the character roster.  -/
def lexLt : List Char → List Char → Bool
  | [], [] => false
  | [], _ :: _ => true
  | _ :: _, [] => false
  | a :: as, b :: bs => if a < b then true else if b < a then false else lexLt as bs

/-- Insertion step of the roster sort.  -/
def insertLex (x : List Char) : List (List Char) → List (List Char)
  | [] => [x]
  | y :: ys => if lexLt y x then y :: insertLex x ys else x :: y :: ys

/-- sorted for the character roster.  -/
def sortLex (l : List (List Char)) : List (List Char) :=
  l.foldr insertLex []

/-- The character roster of _aggregate_metadata: the upper-cased
texts of the character lines, de-duplicated and sorted.  -/
def charactersOf (docs : List SDoc) : List (List Char) :=
  sortLex ((docs.filterMap fun d =>
    if d.doc.text_type = TextType.character
    then some (d.doc.text.map Char.toUpper) else none).dedup)

/-- One emitted scene chunk: formatted text and the aggregated
metadata of _aggregate_metadata.  -/
structure SceneChunk where
  text : List Char
  scene_number : Nat
  location : List Char
  characters : List (List Char)
  page_start : Int
  page_end : Int
deriving DecidableEq

/-- Chunk construction for one group: the location is read from the
first line of the group, the scene number is the group key.  -/
def mkChunk (g : Nat × List SDoc) : SceneChunk :=
  let location := match g.2 with
                  | d :: _ => d.location
                  | [] => []
  { text := formatSceneContent g.2 location
    scene_number := g.1
    location := location
    characters := charactersOf g.2
    page_start := listMinD (pageList g.2)
    page_end := listMaxD (pageList g.2) }

/-- load_documents after the loader call: assignment, filter, stable
sort, grouping and chunk construction.  -/
def loadDocumentsAgg (docs : List ScriptDoc) : List SceneChunk :=
  (groupScenes (sortBySceneId (docsWithSceneId docs))).map mkChunk

/-- Number of location lines, the final value of the scene counter.  -/
def countLoc (docs : List ScriptDoc) : Nat :=
  docs.countP fun d => decide (d.text_type = TextType.location)

/-- Reference form of the assignment loop used in the statements and
proofs below: the pairs of kept line and scene id, threaded through
the counter and a flag recording whether current_location is truthy.
When every line text is non-empty this reproduces docsWithSceneId.  -/
def keptLines : List ScriptDoc → Nat → Bool → List (ScriptDoc × Nat)
  | [], _, _ => []
  | d :: rest, sid, t =>
    if d.text_type = TextType.location then keptLines rest (sid + 1) true
    else if t then (d, sid) :: keptLines rest sid t
    else keptLines rest sid t

/-- The last speaker set by a character line of a scene prefix.  -/
def lastCharText : List SDoc → Option (List Char)
  | [] => none
  | d :: rest =>
    match lastCharText rest with
    | some t => some t
    | none =>
      if d.doc.text_type = TextType.character then some d.doc.text else none

/-- The speaker state after scanning a list of lines.  -/
def charState : Option (List Char) → List SDoc → Option (List Char)
  | cc, [] => cc
  | cc, d :: rest =>
    if d.doc.text_type = TextType.character then charState (some d.doc.text) rest
    else charState cc rest

/-- Truthiness of a classification-rule result as _parse_page_line
tests it: a produced pair whose text is non-empty.  -/
def truthyRes : Option (List Char × Nat) → Bool
  | some (t, _) => !t.isEmpty
  | none => false

/-!  Concrete inputs named in the claim theorems below.  -/

/-- An uppercase line on which the location pattern matches with
margin 8 but with an empty middle group.  -/
def lineEmptyMid : List Char := "A1        A2".toList

/-- A line matching no structural rule whose trimmed text is
non-empty.  -/
def lineFallback : List Char := "Hello".toList

/-- A location line: digit, seven spaces, text, two spaces, digit.  -/
def lineLoc : List Char := "9       X  9".toList

/-- An uppercase line at character margin 38 consisting only of a
parenthetical.  -/
def lineParenOnly : List Char := List.replicate 38 ' ' ++ "(V.O.)".toList

/-- A character cue with a parenthetical at margin 38.  -/
def lineTrinity : List Char := List.replicate 38 ' ' ++ "TRINITY (V.O.)".toList

/-- A dialog line at margin 21.  -/
def lineDialog : List Char := List.replicate 21 ' ' ++ "Status report.".toList

/-- Two scenes in the same location text, one dialog line each.  -/
def exRepeatLoc : List ScriptDoc :=
  [{ text := "A".toList, text_type := TextType.location, page_number := 1 },
   { text := "x".toList, text_type := TextType.dialog, page_number := 1 },
   { text := "A".toList, text_type := TextType.location, page_number := 2 },
   { text := "y".toList, text_type := TextType.dialog, page_number := 2 }]

/-- A location on page 1 whose only body line sits on page 2.  -/
def exPageRange : List ScriptDoc :=
  [{ text := "L".toList, text_type := TextType.location, page_number := 1 },
   { text := "HI".toList, text_type := TextType.dialog, page_number := 2 }]

/-- A speaker in scene 1 followed by a scene 2 that opens with
dialog.  -/
def exCrossScene : List ScriptDoc :=
  [{ text := "A".toList, text_type := TextType.location, page_number := 1 },
   { text := "BO".toList, text_type := TextType.character, page_number := 1 },
   { text := "HI".toList, text_type := TextType.dialog, page_number := 1 },
   { text := "B".toList, text_type := TextType.location, page_number := 1 },
   { text := "YO".toList, text_type := TextType.dialog, page_number := 1 }]

/-- Two adjacent locations: the first scene has an empty body.  -/
def exEmptyScene : List ScriptDoc :=
  [{ text := "A".toList, text_type := TextType.location, page_number := 1 },
   { text := "B".toList, text_type := TextType.location, page_number := 1 },
   { text := "X".toList, text_type := TextType.dialog, page_number := 1 }]

end Kbac


namespace Kbac

/-!  Classifier lemmas.  -/

theorem isEmpty_false_ne_nil {l : List Char} (h : l.isEmpty = false) :
    l ≠ [] := by
  cases l <;> simp_all [List.isEmpty]

theorem ne_nil_isEmpty_false {l : List Char} (h : l ≠ []) :
    l.isEmpty = false := by
  cases l <;> simp_all [List.isEmpty]

theorem space_char_cases (c : Char) (h : pyIsSpaceChar c = true) :
    isDigitChar c = false ∧ c ≠ 'A' ∧ c ≠ 'B' := by
  simp only [pyIsSpaceChar, Bool.or_eq_true, decide_eq_true_eq] at h
  rcases h with ((((h | h) | h) | h) | h) | h <;> subst h <;>
    exact ⟨by decide, by decide, by decide⟩

theorem digit_not_space (c : Char) (h : isDigitChar c = true) :
    pyIsSpaceChar c = false := by
  by_contra hs
  rw [Bool.not_eq_false] at hs
  rcases space_char_cases c hs with ⟨hd, _, _⟩
  rw [h] at hd
  exact Bool.noConfusion hd

theorem emitIf_truthy (tt : TextType) (page : Nat) (t : List Char) (m : Nat)
    (next : Option LineItem) (ht : t ≠ []) :
    emitIf tt page (some (t, m)) next =
      some { page_number := page, text_type := tt, text := t, margin := m } := by
  cases t with
  | nil => exact absurd rfl ht
  | cons c cs => rfl

theorem emitIf_falsy (tt : TextType) (page : Nat) (r : Option (List Char × Nat))
    (next : Option LineItem) (hr : truthyRes r = false) :
    emitIf tt page r next = next := by
  cases r with
  | none => rfl
  | some p =>
    obtain ⟨t, m⟩ := p
    cases t with
    | nil => rfl
    | cons c cs => simp [truthyRes] at hr

theorem emitIf_eq_some {tt : TextType} {page : Nat}
    {r : Option (List Char × Nat)} {next : Option LineItem} {li : LineItem}
    (h : emitIf tt page r next = some li) :
    (∃ t m, r = some (t, m) ∧ t ≠ [] ∧
      li = { page_number := page, text_type := tt, text := t, margin := m }) ∨
    (truthyRes r = false ∧ next = some li) := by
  cases r with
  | none => exact Or.inr ⟨rfl, h⟩
  | some p =>
    obtain ⟨t, m⟩ := p
    cases t with
    | nil => exact Or.inr ⟨rfl, h⟩
    | cons c cs =>
      simp only [emitIf, List.isEmpty, Bool.false_eq_true, if_false,
        Option.some.injEq] at h
      exact Or.inl ⟨c :: cs, m, rfl, by simp, h.symm⟩

theorem emitIf_total {tt : TextType} {page : Nat}
    {r : Option (List Char × Nat)} {next : Option LineItem}
    (h : ∃ li, next = some li) :
    ∃ li, emitIf tt page r next = some li := by
  cases r with
  | none => simpa [emitIf] using h
  | some p =>
    obtain ⟨t, m⟩ := p
    cases t with
    | nil => simpa [emitIf] using h
    | cons c cs => exact ⟨_, rfl⟩

theorem matchTwoSpaces_inv {line : List Char} {m : Nat} {rest : List Char}
    (h : matchTwoSpaces line = some (m, rest)) :
    2 ≤ m ∧ m = (line.takeWhile pyIsSpaceChar).length ∧
      rest = line.dropWhile pyIsSpaceChar := by
  unfold matchTwoSpaces at h
  split at h
  · exact Option.noConfusion h
  · rename_i hge
    simp only [Option.some.injEq, Prod.mk.injEq] at h
    exact ⟨by omega, h.1.symm, h.2.symm⟩

theorem locTry_inv (plen : Nat) (sp tl : List Char) :
    ∀ j m mid, locTry plen sp tl j = some (m, mid) →
      ∃ jj, 2 ≤ jj ∧ jj ≤ j ∧ m = plen + jj ∧
        lazyMid [] (sp.drop jj ++ tl) = some mid := by
  intro j
  induction j with
  | zero => intro m mid h; exact absurd h (by simp [locTry])
  | succ j ih =>
    intro m mid h
    cases j with
    | zero => exact absurd h (by simp [locTry])
    | succ j2 =>
      rw [locTry] at h
      cases hlz : lazyMid [] (sp.drop (j2 + 2) ++ tl) with
      | some mid2 =>
        rw [hlz] at h
        simp only [Option.some.injEq, Prod.mk.injEq] at h
        refine ⟨j2 + 2, by omega, by omega, h.1.symm, ?_⟩
        rw [hlz, h.2]
      | none =>
        rw [hlz] at h
        obtain ⟨jj, h2, h3, h4, h5⟩ := ih m mid h
        exact ⟨jj, h2, by omega, h4, h5⟩

theorem locLeadNum_inv {line : List Char} {plen : Nat} {rest : List Char}
    (h : locLeadNum line = some (plen, rest)) :
    ∃ opt ds, line = opt ++ ds ++ rest ∧
      (opt = [] ∨ opt = ['A'] ∨ opt = ['B']) ∧ ds ≠ [] ∧
      ds.all isDigitChar = true ∧ plen = opt.length + ds.length := by
  cases line with
  | nil => exact absurd h (by simp [locLeadNum])
  | cons c cs =>
    rw [locLeadNum] at h
    split at h
    · rename_i hab
      split at h
      · exact Option.noConfusion h
      · rename_i hds
        simp only [Option.some.injEq, Prod.mk.injEq] at h
        have hsplit := List.takeWhile_append_dropWhile (p := isDigitChar) (l := cs)
        have hc : c = 'A' ∨ c = 'B' := by
          rcases Bool.or_eq_true_iff.mp hab with h1 | h1
          · exact Or.inl (of_decide_eq_true h1)
          · exact Or.inr (of_decide_eq_true h1)
        refine ⟨[c], cs.takeWhile isDigitChar, ?_, ?_, ?_, ?_, ?_⟩
        · rw [← h.2, ← hsplit]
          simp
        · rcases hc with h1 | h1 <;> rw [h1]
          · exact Or.inr (Or.inl rfl)
          · exact Or.inr (Or.inr rfl)
        · exact isEmpty_false_ne_nil (Bool.not_eq_true _ ▸ hds)
        · exact List.all_eq_true.mpr fun a ha => List.mem_takeWhile_imp ha
        · rw [← h.1]; simp
    · rename_i hab
      split at h
      · exact Option.noConfusion h
      · rename_i hds
        simp only [Option.some.injEq, Prod.mk.injEq] at h
        have hsplit :=
          List.takeWhile_append_dropWhile (p := isDigitChar) (l := c :: cs)
        refine ⟨[], (c :: cs).takeWhile isDigitChar, ?_, Or.inl rfl, ?_, ?_, ?_⟩
        · rw [← h.2, List.nil_append, hsplit]
        · exact isEmpty_false_ne_nil (Bool.not_eq_true _ ▸ hds)
        · exact List.all_eq_true.mpr fun a ha => List.mem_takeWhile_imp ha
        · rw [← h.1]; simp

theorem getLocationMatch_inv {line : List Char} {m : Nat} {mid : List Char}
    (h : getLocationMatch line = some (m, mid)) :
    ∃ opt ds sp rest2, line = opt ++ ds ++ sp ++ rest2 ∧
      (opt = [] ∨ opt = ['A'] ∨ opt = ['B']) ∧ ds ≠ [] ∧
      ds.all isDigitChar = true ∧ 2 ≤ sp.length ∧
      sp.all pyIsSpaceChar = true ∧ m = opt.length + ds.length + sp.length := by
  unfold getLocationMatch at h
  cases hp : locLeadNum line with
  | none => rw [hp] at h; exact Option.noConfusion h
  | some p =>
    obtain ⟨plen, rest⟩ := p
    rw [hp] at h
    simp only at h
    obtain ⟨jj, hjj2, hjjle, hm, _⟩ := locTry_inv _ _ _ _ _ _ h
    obtain ⟨opt, ds, hline, hopt, hds, hdig, hplen⟩ := locLeadNum_inv hp
    set tw := rest.takeWhile pyIsSpaceChar with htw
    set dw := rest.dropWhile pyIsSpaceChar with hdw
    have hr : rest = tw.take jj ++ (tw.drop jj ++ dw) := by
      rw [← List.append_assoc, List.take_append_drop, htw, hdw,
        List.takeWhile_append_dropWhile]
    refine ⟨opt, ds, tw.take jj, tw.drop jj ++ dw,
      ?_, hopt, hds, hdig, ?_, ?_, ?_⟩
    · rw [hline, hr]
      simp [List.append_assoc]
    · rw [List.length_take]; omega
    · refine List.all_eq_true.mpr fun a ha => ?_
      exact List.mem_takeWhile_imp (List.mem_of_mem_take ha)
    · rw [hm, hplen, List.length_take]
      have hmin : min jj tw.length = jj := Nat.min_eq_left hjjle
      omega

theorem getLocationText_inv {cfg : LoaderConfig} {line t : List Char} {m : Nat}
    (h : getLocationText cfg line = some (t, m)) :
    pyIsUpper line = true ∧ m ∈ cfg.location_margins ∧
      ∃ mid, getLocationMatch line = some (m, mid) ∧ t = pyStrip mid := by
  unfold getLocationText at h
  split at h
  · rename_i hup
    cases hm : getLocationMatch line with
    | none => rw [hm] at h; exact Option.noConfusion h
    | some p =>
      obtain ⟨m0, mid⟩ := p
      rw [hm] at h
      simp only at h
      split at h
      · rename_i hmem
        simp only [Option.some.injEq, Prod.mk.injEq] at h
        refine ⟨hup, h.2 ▸ hmem, mid, ?_, h.1.symm⟩
        rw [← h.2]
      · exact Option.noConfusion h
  · exact Option.noConfusion h

theorem getCharacterText_inv {cfg : LoaderConfig} {line t : List Char} {m : Nat}
    (h : getCharacterText cfg line = some (t, m)) :
    pyIsUpper line = true ∧ m ∈ cfg.character_margins ∧ 2 ≤ m ∧
      m = (line.takeWhile pyIsSpaceChar).length ∧
      t = pyStrip (removeParens (line.dropWhile pyIsSpaceChar)) := by
  unfold getCharacterText at h
  split at h
  · rename_i hup
    cases hm : matchTwoSpaces line with
    | none => rw [hm] at h; exact Option.noConfusion h
    | some p =>
      obtain ⟨m0, rest⟩ := p
      rw [hm] at h
      simp only at h
      split at h
      · rename_i hmem
        simp only [Option.some.injEq, Prod.mk.injEq] at h
        obtain ⟨h2, hlen, hrest⟩ := matchTwoSpaces_inv hm
        exact ⟨hup, h.2 ▸ hmem, h.2 ▸ h2, h.2 ▸ hlen,
          by rw [← h.1, hrest]⟩
      · exact Option.noConfusion h
  · exact Option.noConfusion h

theorem getNonUpperText_inv {margins : List Nat} {line t : List Char} {m : Nat}
    (h : getNonUpperText margins line = some (t, m)) :
    m ∈ margins ∧ 2 ≤ m ∧ m = (line.takeWhile pyIsSpaceChar).length ∧
      t = pyStrip (line.dropWhile pyIsSpaceChar) := by
  unfold getNonUpperText at h
  cases hm : matchTwoSpaces line with
  | none => rw [hm] at h; exact Option.noConfusion h
  | some p =>
    obtain ⟨m0, rest⟩ := p
    rw [hm] at h
    simp only at h
    split at h
    · rename_i hmem
      simp only [Option.some.injEq, Prod.mk.injEq] at h
      obtain ⟨h2, hlen, hrest⟩ := matchTwoSpaces_inv hm
      exact ⟨h.2 ▸ hmem, h.2 ▸ h2, h.2 ▸ hlen, by rw [← h.1, hrest]⟩
    · exact Option.noConfusion h

theorem getLocationText_pos {cfg : LoaderConfig} {line t : List Char} {m : Nat}
    (h : getLocationText cfg line = some (t, m)) : 2 ≤ m := by
  obtain ⟨_, _, mid, hm, _⟩ := getLocationText_inv h
  obtain ⟨opt, ds, sp, rest2, _, _, _, _, hsp, _, hsum⟩ := getLocationMatch_inv hm
  omega

theorem getCharacterText_pos {cfg : LoaderConfig} {line t : List Char} {m : Nat}
    (h : getCharacterText cfg line = some (t, m)) : 2 ≤ m :=
  (getCharacterText_inv h).2.2.1

theorem getNonUpperText_pos {margins : List Nat} {line t : List Char} {m : Nat}
    (h : getNonUpperText margins line = some (t, m)) : 2 ≤ m :=
  (getNonUpperText_inv h).2.1

/-- Full inversion of the classification chain: any produced item has
the page number it was called with, a non-empty text, a positive
margin, never the raw tag, and its rule of origin is determined by
its tag, the description tag covering both the genuine description
rule and the margin-1 fallback.  -/
theorem parsePageLine_inv {cfg : LoaderConfig} {page : Nat} {line : List Char}
    {li : LineItem} (h : parsePageLine cfg page line = some li) :
    hasIgnoreTag cfg line = false ∧ li.page_number = page ∧ li.text ≠ [] ∧
      1 ≤ li.margin ∧
      (li.text_type = TextType.location →
        getLocationText cfg line = some (li.text, li.margin)) ∧
      (li.text_type = TextType.character →
        getCharacterText cfg line = some (li.text, li.margin)) ∧
      (li.text_type = TextType.dialog →
        getDialogText cfg line = some (li.text, li.margin)) ∧
      (li.text_type = TextType.description →
        getDescriptionText cfg line = some (li.text, li.margin) ∨
          (li.margin = 1 ∧ li.text = pyStrip line)) ∧
      li.text_type ≠ TextType.raw := by
  unfold parsePageLine at h
  split at h
  · exact Option.noConfusion h
  · rename_i hig
    rw [Bool.not_eq_true] at hig
    refine ⟨hig, ?_⟩
    rcases emitIf_eq_some h with ⟨t, m, hr, ht, hli⟩ | ⟨_, h⟩
    · subst hli
      refine ⟨rfl, ht, ?_, fun _ => hr, ?_, ?_, ?_, ?_⟩
      · exact le_trans (by norm_num) (getLocationText_pos hr)
      all_goals intro hc; exact TextType.noConfusion hc
    · rcases emitIf_eq_some h with ⟨t, m, hr, ht, hli⟩ | ⟨_, h⟩
      · subst hli
        refine ⟨rfl, ht, ?_, ?_, fun _ => hr, ?_, ?_, ?_⟩
        · exact le_trans (by norm_num) (getCharacterText_pos hr)
        all_goals intro hc; exact TextType.noConfusion hc
      · rcases emitIf_eq_some h with ⟨t, m, hr, ht, hli⟩ | ⟨_, h⟩
        · subst hli
          refine ⟨rfl, ht, ?_, ?_, ?_, fun _ => hr, ?_, ?_⟩
          · exact le_trans (by norm_num) (getNonUpperText_pos hr)
          all_goals intro hc; exact TextType.noConfusion hc
        · rcases emitIf_eq_some h with ⟨t, m, hr, ht, hli⟩ | ⟨_, h⟩
          · subst hli
            refine ⟨rfl, ht, ?_, ?_, ?_, ?_, fun _ => Or.inl hr, ?_⟩
            · exact le_trans (by norm_num) (getNonUpperText_pos hr)
            all_goals intro hc; exact TextType.noConfusion hc
          · split at h
            · exact Option.noConfusion h
            · rename_i hne
              rw [Bool.not_eq_true] at hne
              have hstrip := isEmpty_false_ne_nil hne
              simp only [Option.some.injEq] at h
              subst h
              refine ⟨rfl, hstrip, le_refl 1, ?_, ?_, ?_,
                fun _ => Or.inr ⟨rfl, rfl⟩, ?_⟩
              all_goals intro hc; exact TextType.noConfusion hc

/-- Totality of the classification chain: a line with non-empty
trimmed text and no ignore tag always produces an item.  -/
theorem parsePageLine_total (cfg : LoaderConfig) (page : Nat) (line : List Char)
    (hns : pyStrip line ≠ []) (hig : hasIgnoreTag cfg line = false) :
    ∃ li, parsePageLine cfg page line = some li := by
  unfold parsePageLine
  rw [hig]
  simp only [Bool.false_eq_true, if_false]
  refine emitIf_total (emitIf_total (emitIf_total (emitIf_total ?_)))
  rw [ne_nil_isEmpty_false hns]
  exact ⟨_, rfl⟩

/-- The location pattern only matches lines whose first character is
a letter A or B or a digit; in particular the leading whitespace run
of a matched line is empty.  -/
theorem getLocationMatch_head {line : List Char} {m : Nat} {mid : List Char}
    (h : getLocationMatch line = some (m, mid)) :
    line.takeWhile pyIsSpaceChar = [] := by
  obtain ⟨opt, ds, sp, rest2, hline, hopt, hds, hdig, _, _, _⟩ :=
    getLocationMatch_inv h
  have hhead : ∃ c cs, line = c :: cs ∧ pyIsSpaceChar c = false := by
    rcases hopt with ho | ho | ho
    · subst ho
      cases ds with
      | nil => exact absurd rfl hds
      | cons c cs =>
        refine ⟨c, _, by simpa using hline, ?_⟩
        have hc : isDigitChar c = true := by
          have := List.all_eq_true.mp hdig c (by simp)
          simpa using this
        exact digit_not_space c hc
    · subst ho
      exact ⟨'A', _, by simpa using hline, by decide⟩
    · subst ho
      exact ⟨'B', _, by simpa using hline, by decide⟩
  obtain ⟨c, cs, hl, hcs⟩ := hhead
  rw [hl, List.takeWhile_cons, hcs]
  simp

/-- A line with at least two leading whitespace characters never
matches the location pattern, whose first character is a letter or a
digit.  -/
theorem getLocationText_of_leading_space {cfg : LoaderConfig}
    {line : List Char} {m : Nat} {rest : List Char}
    (h : matchTwoSpaces line = some (m, rest)) :
    getLocationText cfg line = none := by
  obtain ⟨h2, hlen, _⟩ := matchTwoSpaces_inv h
  unfold getLocationText
  split
  · cases hm : getLocationMatch line with
    | none => rfl
    | some p =>
      exfalso
      obtain ⟨m0, mid⟩ := p
      have hnil := getLocationMatch_head hm
      rw [hnil] at hlen
      simp at hlen
      omega
  · rfl

end Kbac

namespace Kbac

/-!  Claim theorems for the line classifier.  -/

/-- C1, counterexample.  On the line A1 followed by eight spaces and
A2, the location rule is fully satisfied in the sense of the claim:
the pattern matches, the line is uppercase, and the margin 8 is in
the configured location set (getLocationText returns a result, which
requires all three).  Yet the captured middle group is empty, so the
Python truthiness test fails, later rules are consulted, and the line
is emitted by the fallback as description with margin 1 rather than
as location.  -/
theorem C1_counterexample :
    getLocationText defaultConfig lineEmptyMid = some ([], 8) ∧
    pyIsUpper lineEmptyMid = true ∧
    parsePageLine defaultConfig 1 lineEmptyMid =
      some { page_number := 1, text_type := TextType.description,
             text := lineEmptyMid, margin := 1 } ∧
    TextType.description ≠ TextType.location := by
  refine ⟨by decide, by decide, by decide, by decide⟩

/-- C1, amended: the classifier evaluates location, character,
dialog, description, fallback in that order with first match
winning, where a rule matches when its pattern, case requirement and
margin-set membership are satisfied AND its extracted text is
non-empty; an earlier match determines the emitted tag and later
rules are not consulted; in particular dialog is checked before
description.  -/
theorem C1_rule_order (cfg : LoaderConfig) (page : Nat) (line : List Char)
    (hig : hasIgnoreTag cfg line = false) :
    (∀ t m, getLocationText cfg line = some (t, m) → t ≠ [] →
      parsePageLine cfg page line =
        some { page_number := page, text_type := TextType.location,
               text := t, margin := m }) ∧
    (truthyRes (getLocationText cfg line) = false →
      ∀ t m, getCharacterText cfg line = some (t, m) → t ≠ [] →
      parsePageLine cfg page line =
        some { page_number := page, text_type := TextType.character,
               text := t, margin := m }) ∧
    (truthyRes (getLocationText cfg line) = false →
      truthyRes (getCharacterText cfg line) = false →
      ∀ t m, getDialogText cfg line = some (t, m) → t ≠ [] →
      parsePageLine cfg page line =
        some { page_number := page, text_type := TextType.dialog,
               text := t, margin := m }) ∧
    (truthyRes (getLocationText cfg line) = false →
      truthyRes (getCharacterText cfg line) = false →
      truthyRes (getDialogText cfg line) = false →
      ∀ t m, getDescriptionText cfg line = some (t, m) → t ≠ [] →
      parsePageLine cfg page line =
        some { page_number := page, text_type := TextType.description,
               text := t, margin := m }) := by
  unfold parsePageLine
  rw [hig]
  simp only [Bool.false_eq_true, if_false]
  refine ⟨?_, ?_, ?_, ?_⟩
  · intro t m hr ht
    rw [hr, emitIf_truthy _ _ _ _ _ ht]
  · intro h1 t m hr ht
    rw [emitIf_falsy _ _ _ _ h1, hr, emitIf_truthy _ _ _ _ _ ht]
  · intro h1 h2 t m hr ht
    rw [emitIf_falsy _ _ _ _ h1, emitIf_falsy _ _ _ _ h2, hr,
      emitIf_truthy _ _ _ _ _ ht]
  · intro h1 h2 h3 t m hr ht
    rw [emitIf_falsy _ _ _ _ h1, emitIf_falsy _ _ _ _ h2,
      emitIf_falsy _ _ _ _ h3, hr, emitIf_truthy _ _ _ _ _ ht]

/-- C1, witness: a dialog line at margin 21 is classified by the
dialog rule after location and character fail.  -/
theorem C1_witness :
    parsePageLine defaultConfig 2 lineDialog =
      some { page_number := 2, text_type := TextType.dialog,
             text := "Status report.".toList, margin := 21 } :=
  (C1_rule_order defaultConfig 2 lineDialog (by decide)).2.2.1
    (by decide) (by decide) ("Status report.".toList) 21 (by decide) (by decide)

/-- C2, counterexample.  The line Hello matches no structural rule
and has non-empty trimmed text, but the classifier of
matrix_script_loader.py emits it as description with margin 1, not
as raw; moreover that margin 1 lies outside the configured
description margin set, so the stated invariant fails as well.  -/
theorem C2_counterexample :
    parsePageLine defaultConfig 1 lineFallback =
      some { page_number := 1, text_type := TextType.description,
             text := lineFallback, margin := 1 } ∧
    TextType.description ≠ TextType.raw ∧
    ¬ (1 ∈ defaultConfig.description_margins) := by
  refine ⟨by decide, by decide, by decide⟩

/-- C2, amended: a line matching none of the four structural rules
whose trimmed text is non-empty is emitted as description with the
sentinel margin 1 (the raw tag is never emitted by this loader), and
every emitted item has its margin inside the configured set for its
tag except for those fallback description items, which carry the
sentinel 1.  -/
theorem C2_fallback_and_margins (cfg : LoaderConfig) (page : Nat)
    (line : List Char) :
    (truthyRes (getLocationText cfg line) = false →
      truthyRes (getCharacterText cfg line) = false →
      truthyRes (getDialogText cfg line) = false →
      truthyRes (getDescriptionText cfg line) = false →
      hasIgnoreTag cfg line = false → pyStrip line ≠ [] →
      parsePageLine cfg page line =
        some { page_number := page, text_type := TextType.description,
               text := pyStrip line, margin := 1 }) ∧
    (∀ li, parsePageLine cfg page line = some li →
      li.text_type ≠ TextType.raw ∧
      (li.text_type = TextType.location → li.margin ∈ cfg.location_margins) ∧
      (li.text_type = TextType.character → li.margin ∈ cfg.character_margins) ∧
      (li.text_type = TextType.dialog → li.margin ∈ cfg.dialog_margins) ∧
      (li.text_type = TextType.description →
        li.margin ∈ cfg.description_margins ∨ li.margin = 1)) := by
  constructor
  · intro h1 h2 h3 h4 hig hns
    unfold parsePageLine
    rw [hig]
    simp only [Bool.false_eq_true, if_false]
    rw [emitIf_falsy _ _ _ _ h1, emitIf_falsy _ _ _ _ h2,
      emitIf_falsy _ _ _ _ h3, emitIf_falsy _ _ _ _ h4,
      ne_nil_isEmpty_false hns]
    rfl
  · intro li hli
    obtain ⟨_, _, _, _, hloc, hchar, hdlg, hdesc, hraw⟩ := parsePageLine_inv hli
    refine ⟨hraw, ?_, ?_, ?_, ?_⟩
    · intro h
      exact (getLocationText_inv (hloc h)).2.1
    · intro h
      exact (getCharacterText_inv (hchar h)).2.1
    · intro h
      exact (getNonUpperText_inv (hdlg h)).1
    · intro h
      rcases hdesc h with hd | hd
      · exact Or.inl (getNonUpperText_inv hd).1
      · exact Or.inr hd.1

/-- C2, witness: the fallback emits the line Hello as description
with margin 1.  -/
theorem C2_witness :
    parsePageLine defaultConfig 5 lineFallback =
      some { page_number := 5, text_type := TextType.description,
             text := "Hello".toList, margin := 1 } :=
  (C2_fallback_and_margins defaultConfig 5 lineFallback).1
    (by decide) (by decide) (by decide) (by decide) (by decide) (by decide)

/-- C3, counterexample.  The line consisting of the digit 9, seven
spaces, X, two spaces and 9 is classified as location with margin 8,
although its leading whitespace run has length 0: the location
margin is the length of the matched scene-number prefix, not of a
leading whitespace run, and 0 is not in the configured set either.  -/
theorem C3_counterexample :
    parsePageLine defaultConfig 1 lineLoc =
      some { page_number := 1, text_type := TextType.location,
             text := "X".toList, margin := 8 } ∧
    (lineLoc.takeWhile pyIsSpaceChar).length = 0 ∧ (0 : Nat) ≠ 8 := by
  refine ⟨by decide, by decide, by decide⟩

/-- C3, amended: for every line classified as location, the margin is
the length of the matched leading group consisting of an optional
letter A or B, a non-empty digit run and a whitespace run of length
at least two — the leading whitespace run of such a line is in fact
empty — the line is accepted only when that length is in the
configured location margin set, and the emitted text is the captured
middle group trimmed.  -/
theorem C3_location_margin (cfg : LoaderConfig) (page : Nat)
    (line : List Char) (li : LineItem)
    (h : parsePageLine cfg page line = some li)
    (hloc : li.text_type = TextType.location) :
    li.margin ∈ cfg.location_margins ∧
    line.takeWhile pyIsSpaceChar = [] ∧
    (∃ opt ds sp rest2, line = opt ++ ds ++ sp ++ rest2 ∧
      (opt = [] ∨ opt = ['A'] ∨ opt = ['B']) ∧ ds ≠ [] ∧
      ds.all isDigitChar = true ∧ 2 ≤ sp.length ∧
      sp.all pyIsSpaceChar = true ∧
      li.margin = opt.length + ds.length + sp.length) ∧
    (∃ mid, getLocationMatch line = some (li.margin, mid) ∧
      li.text = pyStrip mid) := by
  obtain ⟨_, _, _, _, hl, _, _, _, _⟩ := parsePageLine_inv h
  obtain ⟨hup, hmem, mid, hm, ht⟩ := getLocationText_inv (hl hloc)
  exact ⟨hmem, getLocationMatch_head hm, getLocationMatch_inv hm,
    mid, hm, ht⟩

/-- C3, witness: the concrete location line above instantiates the
amended statement.  -/
theorem C3_witness :
    8 ∈ defaultConfig.location_margins ∧
    lineLoc.takeWhile pyIsSpaceChar = [] := by
  have h := C3_location_margin defaultConfig 1 lineLoc
    { page_number := 1, text_type := TextType.location,
      text := "X".toList, margin := 8 } (by decide) rfl
  exact ⟨h.1, h.2.1⟩

/-- C4, confirmed: every line with non-empty trimmed text and no
ignore-tag substring yields exactly one item (the classifier returns
an option, so at most one; here it is always produced), and the item
satisfies the pydantic validations — non-empty text and positive
margin — so construction never raises; unmatched lines reach the
fallback instead of erroring.  -/
theorem C4_exhaustive_no_error (cfg : LoaderConfig) (page : Nat)
    (line : List Char) (hns : pyStrip line ≠ [])
    (hig : hasIgnoreTag cfg line = false) :
    ∃ li, parsePageLine cfg page line = some li ∧ li.text ≠ [] ∧
      1 ≤ li.margin := by
  obtain ⟨li, hli⟩ := parsePageLine_total cfg page line hns hig
  obtain ⟨_, _, ht, hm, _⟩ := parsePageLine_inv hli
  exact ⟨li, hli, ht, hm⟩

/-- C4, witness: the malformed line Hello is neither dropped nor an
error; it produces an item.  -/
theorem C4_witness :
    pyStrip lineFallback ≠ [] ∧
    hasIgnoreTag defaultConfig lineFallback = false ∧
    (parsePageLine defaultConfig 1 lineFallback).isSome = true := by
  refine ⟨by decide, by decide, ?_⟩
  obtain ⟨li, hli, _, _⟩ :=
    C4_exhaustive_no_error defaultConfig 1 lineFallback (by decide) (by decide)
  rw [hli]
  rfl

/-- C9, counterexample.  A line of 38 spaces followed only by the
parenthetical V.O. is entirely uppercase in the Python sense, its
leading-space count 38 is in the configured character margin set,
yet no character item is emitted: removing the parenthetical leaves
an empty text, the truthiness test fails, and the fallback emits the
line as description with margin 1.  -/
theorem C9_counterexample :
    pyIsUpper lineParenOnly = true ∧
    (lineParenOnly.takeWhile pyIsSpaceChar).length = 38 ∧
    38 ∈ defaultConfig.character_margins ∧
    parsePageLine defaultConfig 1 lineParenOnly =
      some { page_number := 1, text_type := TextType.description,
             text := "(V.O.)".toList, margin := 1 } ∧
    TextType.description ≠ TextType.character := by
  refine ⟨by decide, by decide, by decide, by decide, by decide⟩

/-- C9, amended: an entirely-uppercase line with at least two leading
whitespace characters whose leading run length is in the configured
character margin set is emitted as a character item with any
parenthetical annotation removed and the result trimmed, provided
that result is non-empty (otherwise the rule falls through).  -/
theorem C9_character_parenthetical (cfg : LoaderConfig) (page : Nat)
    (line : List Char) (m : Nat) (rest : List Char)
    (hig : hasIgnoreTag cfg line = false)
    (hup : pyIsUpper line = true)
    (hm : matchTwoSpaces line = some (m, rest))
    (hmem : m ∈ cfg.character_margins)
    (hne : pyStrip (removeParens rest) ≠ []) :
    parsePageLine cfg page line =
      some { page_number := page, text_type := TextType.character,
             text := pyStrip (removeParens rest), margin := m } := by
  have hloc : getLocationText cfg line = none :=
    getLocationText_of_leading_space hm
  have hchar : getCharacterText cfg line =
      some (pyStrip (removeParens rest), m) := by
    unfold getCharacterText
    rw [hup, hm]
    simp only [if_true]
    rw [if_pos hmem]
  unfold parsePageLine
  rw [hig]
  simp only [Bool.false_eq_true, if_false]
  rw [hloc, hchar, emitIf_truthy _ _ _ _ _ hne]
  rfl

/-- C9, witness: the scenario of the spec at a configured margin,
TRINITY with a V.O. parenthetical, classified as the bare name.  -/
theorem C9_witness :
    parsePageLine defaultConfig 3 lineTrinity =
      some { page_number := 3, text_type := TextType.character,
             text := "TRINITY".toList, margin := 38 } :=
  C9_character_parenthetical defaultConfig 3 lineTrinity 38
    ("TRINITY (V.O.)".toList) (by decide) (by decide) (by decide)
    (by decide) (by decide)

/-!  Aggregator lemmas: the reference fold keptLines.  -/

theorem countLoc_nil : countLoc [] = 0 := rfl

theorem countLoc_cons (d : ScriptDoc) (rest : List ScriptDoc) :
    countLoc (d :: rest) =
      countLoc rest + (if d.text_type = TextType.location then 1 else 0) := by
  simp [countLoc, List.countP_cons]

theorem countLoc_append (a b : List ScriptDoc) :
    countLoc (a ++ b) = countLoc a + countLoc b := by
  simp [countLoc, List.countP_append]

theorem annOf_some_eq {l : List Char} (h : l ≠ []) (n : Nat) :
    annOf (some l) n = some (l, n) := by
  simp [annOf, ne_nil_isEmpty_false h]

theorem clocTruthy_some_eq {l : List Char} (h : l ≠ []) :
    clocTruthy (some l) = true := by
  simp [clocTruthy, ne_nil_isEmpty_false h]

/-- The filtered and annotated line list equals the reference fold,
provided every line text is non-empty (as the classifier
guarantees).  -/
theorem assignScenes_filterMap (docs : List ScriptDoc) :
    ∀ (sid : Nat) (cloc : Option (List Char)), (∀ d ∈ docs, d.text ≠ []) →
    (((assignScenes docs sid cloc).filterMap fun p =>
      match p.2 with
      | some (l, n) =>
        if p.1.text_type = TextType.location then none
        else some ({ doc := p.1, location := l, scene_id := n } : SDoc)
      | none => none).map fun x => (x.doc, x.scene_id)) =
      keptLines docs sid (clocTruthy cloc) := by
  induction docs with
  | nil => intro sid cloc h; rfl
  | cons d rest ih =>
    intro sid cloc h
    have hd : d.text ≠ [] := h d (by simp)
    have hrest : ∀ x ∈ rest, x.text ≠ [] := fun x hx => h x (by simp [hx])
    by_cases hl : d.text_type = TextType.location
    · rw [assignScenes, if_pos hl, keptLines, if_pos hl]
      rw [List.filterMap_cons, annOf_some_eq hd]
      simp only [hl, if_true]
      rw [ih (sid + 1) (some d.text) hrest, clocTruthy_some_eq hd]
    · rw [assignScenes, if_neg hl, keptLines, if_neg hl]
      cases cloc with
      | none =>
        rw [List.filterMap_cons]
        simp only [annOf]
        rw [ih sid none hrest]
        simp [clocTruthy]
      | some l =>
        cases he : l.isEmpty with
        | true =>
          rw [List.filterMap_cons]
          simp only [annOf, he, if_true]
          rw [ih sid (some l) hrest]
          simp [clocTruthy, he]
        | false =>
          rw [List.filterMap_cons]
          simp only [annOf, he, Bool.false_eq_true, if_false, hl,
            List.map_cons]
          rw [ih sid (some l) hrest]
          simp [clocTruthy, he]

theorem docsWithSceneId_pairs (docs : List ScriptDoc)
    (h : ∀ d ∈ docs, d.text ≠ []) :
    (docsWithSceneId docs).map (fun x => (x.doc, x.scene_id)) =
      keptLines docs 0 false := by
  unfold docsWithSceneId
  rw [assignScenes_filterMap docs 0 none h]
  rfl

theorem docsWithSceneId_ids (docs : List ScriptDoc)
    (h : ∀ d ∈ docs, d.text ≠ []) :
    (docsWithSceneId docs).map (fun x => x.scene_id) =
      (keptLines docs 0 false).map (fun x => x.2) := by
  rw [← docsWithSceneId_pairs docs h, List.map_map]
  rfl

theorem docsWithSceneId_docs (docs : List ScriptDoc)
    (h : ∀ d ∈ docs, d.text ≠ []) :
    (docsWithSceneId docs).map (fun x => x.doc) =
      (keptLines docs 0 false).map (fun x => x.1) := by
  rw [← docsWithSceneId_pairs docs h, List.map_map]
  rfl

theorem keptLines_bounds (docs : List ScriptDoc) :
    ∀ (sid : Nat) (t : Bool) x, x ∈ keptLines docs sid t →
      sid ≤ x.2 ∧ x.2 ≤ sid + countLoc docs := by
  induction docs with
  | nil => intro sid t x hx; exact absurd hx (by simp [keptLines])
  | cons d rest ih =>
    intro sid t x hx
    rw [keptLines] at hx
    have hcnt := countLoc_cons d rest
    by_cases hl : d.text_type = TextType.location
    · rw [if_pos hl] at hx
      have := ih (sid + 1) true x hx
      rw [hcnt, if_pos hl]
      omega
    · rw [if_neg hl] at hx
      rw [hcnt, if_neg hl]
      cases t with
      | true =>
        simp only [if_true] at hx
        rcases List.mem_cons.mp hx with hx | hx
        · subst hx; omega
        · have := ih sid true x hx; omega
      | false =>
        simp only [Bool.false_eq_true, if_false] at hx
        have := ih sid false x hx
        omega

theorem keptLines_pairwise (docs : List ScriptDoc) :
    ∀ (sid : Nat) (t : Bool),
      List.Pairwise (fun a b => a.2 ≤ b.2) (keptLines docs sid t) := by
  induction docs with
  | nil => intro sid t; simp [keptLines]
  | cons d rest ih =>
    intro sid t
    rw [keptLines]
    by_cases hl : d.text_type = TextType.location
    · rw [if_pos hl]
      exact ih (sid + 1) true
    · rw [if_neg hl]
      cases t with
      | true =>
        simp only [if_true]
        refine List.Pairwise.cons ?_ (ih sid true)
        intro x hx
        exact (keptLines_bounds rest sid true x hx).1
      | false =>
        simp only [Bool.false_eq_true, if_false]
        exact ih sid false

theorem keptLines_not_loc (docs : List ScriptDoc) :
    ∀ (sid : Nat) (t : Bool) x, x ∈ keptLines docs sid t →
      x.1.text_type ≠ TextType.location := by
  induction docs with
  | nil => intro sid t x hx; exact absurd hx (by simp [keptLines])
  | cons d rest ih =>
    intro sid t x hx
    rw [keptLines] at hx
    by_cases hl : d.text_type = TextType.location
    · rw [if_pos hl] at hx
      exact ih (sid + 1) true x hx
    · rw [if_neg hl] at hx
      cases t with
      | true =>
        simp only [if_true] at hx
        rcases List.mem_cons.mp hx with hx | hx
        · subst hx; exact hl
        · exact ih sid true x hx
      | false =>
        simp only [Bool.false_eq_true, if_false] at hx
        exact ih sid false x hx

theorem keptLines_append (a b : List ScriptDoc) :
    ∀ (sid : Nat) (t : Bool),
      keptLines (a ++ b) sid t =
        keptLines a sid t ++
          keptLines b (sid + countLoc a) (t || decide (0 < countLoc a)) := by
  induction a with
  | nil =>
    intro sid t
    simp [keptLines, countLoc_nil]
  | cons d rest ih =>
    intro sid t
    rw [List.cons_append, keptLines, keptLines]
    have hcnt := countLoc_cons d rest
    by_cases hl : d.text_type = TextType.location
    · rw [if_pos hl, if_pos hl, ih (sid + 1) true]
      have h1 : sid + 1 + countLoc rest = sid + countLoc (d :: rest) := by
        rw [hcnt, if_pos hl]; omega
      have h2 : (true || decide (0 < countLoc rest)) =
          (t || decide (0 < countLoc (d :: rest))) := by
        rw [hcnt, if_pos hl]
        have : decide (0 < countLoc rest + 1) = true := by
          simp
        rw [this]
        simp
      rw [h1, h2]
    · rw [if_neg hl, if_neg hl]
      have h1 : sid + countLoc rest = sid + countLoc (d :: rest) := by
        rw [hcnt, if_neg hl]
        omega
      have h2 : countLoc rest = countLoc (d :: rest) := by
        rw [hcnt, if_neg hl]
        omega
      cases t with
      | true =>
        simp only [if_true]
        rw [List.cons_append, ih sid true, h1, ← h2]
      | false =>
        simp only [Bool.false_eq_true, if_false]
        rw [ih sid false, h1, ← h2]

theorem keptLines_all_loc (docs : List ScriptDoc)
    (h : ∀ d ∈ docs, d.text_type = TextType.location) :
    ∀ (sid : Nat) (t : Bool), keptLines docs sid t = [] := by
  induction docs with
  | nil => intro sid t; rfl
  | cons d rest ih =>
    intro sid t
    rw [keptLines, if_pos (h d (by simp))]
    exact ih (fun x hx => h x (by simp [hx])) (sid + 1) true

/-- Where the ids of kept lines come from when a scene is already
open: either the id current on entry, or the count of location lines
up to and including some later location line.  -/
theorem keptLines_ids_true (docs : List ScriptDoc) :
    ∀ (sid : Nat) x, x ∈ keptLines docs sid true →
      x.2 = sid ∨ ∃ a L b, docs = a ++ L :: b ∧
        L.text_type = TextType.location ∧ x.2 = sid + countLoc a + 1 := by
  induction docs with
  | nil => intro sid x hx; exact absurd hx (by simp [keptLines])
  | cons d rest ih =>
    intro sid x hx
    rw [keptLines] at hx
    by_cases hl : d.text_type = TextType.location
    · rw [if_pos hl] at hx
      rcases ih (sid + 1) x hx with h | ⟨a, L, b, hab, hL, hid⟩
      · exact Or.inr ⟨[], d, rest, rfl, hl, by rw [countLoc_nil]; omega⟩
      · refine Or.inr ⟨d :: a, L, b, by rw [hab]; rfl, hL, ?_⟩
        rw [countLoc_cons, if_pos hl] at *
        omega
    · rw [if_neg hl] at hx
      simp only [if_true] at hx
      rcases List.mem_cons.mp hx with hx | hx
      · subst hx; exact Or.inl rfl
      · rcases ih sid x hx with h | ⟨a, L, b, hab, hL, hid⟩
        · exact Or.inl h
        · refine Or.inr ⟨d :: a, L, b, by rw [hab]; rfl, hL, ?_⟩
          rw [countLoc_cons, if_neg hl] at *
          omega

/-- Before any location line has been seen, every kept line owes its
id to a location line of the document: the id is the count of
location lines up to and including that one.  -/
theorem keptLines_ids_false (docs : List ScriptDoc) :
    ∀ (sid : Nat) x, x ∈ keptLines docs sid false →
      ∃ a L b, docs = a ++ L :: b ∧
        L.text_type = TextType.location ∧ x.2 = sid + countLoc a + 1 := by
  induction docs with
  | nil => intro sid x hx; exact absurd hx (by simp [keptLines])
  | cons d rest ih =>
    intro sid x hx
    rw [keptLines] at hx
    by_cases hl : d.text_type = TextType.location
    · rw [if_pos hl] at hx
      rcases keptLines_ids_true rest (sid + 1) x hx with h | ⟨a, L, b, hab, hL, hid⟩
      · exact ⟨[], d, rest, rfl, hl, by rw [countLoc_nil]; omega⟩
      · refine ⟨d :: a, L, b, by rw [hab]; rfl, hL, ?_⟩
        rw [countLoc_cons, if_pos hl] at *
        omega
    · rw [if_neg hl] at hx
      simp only [Bool.false_eq_true, if_false] at hx
      obtain ⟨a, L, b, hab, hL, hid⟩ := ih sid x hx
      refine ⟨d :: a, L, b, by rw [hab]; rfl, hL, ?_⟩
      rw [countLoc_cons, if_neg hl] at *
      omega

/-- With a scene open, the kept lines are exactly the non-location
lines, in order.  -/
theorem keptLines_map_fst_true (docs : List ScriptDoc) :
    ∀ (sid : Nat),
      (keptLines docs sid true).map (fun x => x.1) =
        docs.filter (fun d => !decide (d.text_type = TextType.location)) := by
  induction docs with
  | nil => intro sid; rfl
  | cons d rest ih =>
    intro sid
    rw [keptLines, List.filter_cons]
    by_cases hl : d.text_type = TextType.location
    · rw [if_pos hl]
      simp only [hl]
      simp
      exact ih (sid + 1)
    · rw [if_neg hl]
      simp only [hl]
      simp
      exact ih sid

/-- With no scene open, the kept lines are the non-location lines at
or after the first location line, in order.  -/
theorem keptLines_map_fst_false (docs : List ScriptDoc) :
    ∀ (sid : Nat),
      (keptLines docs sid false).map (fun x => x.1) =
        (docs.dropWhile (fun d => !decide (d.text_type = TextType.location))).filter
          (fun d => !decide (d.text_type = TextType.location)) := by
  induction docs with
  | nil => intro sid; rfl
  | cons d rest ih =>
    intro sid
    rw [keptLines, List.dropWhile_cons]
    by_cases hl : d.text_type = TextType.location
    · rw [if_pos hl]
      simp only [hl]
      simp [List.filter_cons, hl]
      exact keptLines_map_fst_true rest (sid + 1)
    · rw [if_neg hl]
      simp only [hl]
      simp
      exact ih sid

/-!  Sort and grouping lemmas.  -/

/-- Stable insertion into a list whose head is not smaller leaves the
list unchanged.  -/
theorem insertStable_of_le (x : SDoc) (l : List SDoc)
    (h : ∀ y ∈ l.head?, x.scene_id ≤ y.scene_id) :
    insertStable x l = x :: l := by
  cases l with
  | nil => rfl
  | cons y ys =>
    rw [insertStable]
    have hxy : x.scene_id ≤ y.scene_id := h y (by simp)
    rw [if_neg (by omega)]

/-- The stable sort is the identity on lists already ordered by scene
id, such as the assignment output.  -/
theorem sortBySceneId_id (l : List SDoc)
    (h : List.Pairwise (fun a b => a.scene_id ≤ b.scene_id) l) :
    sortBySceneId l = l := by
  induction l with
  | nil => rfl
  | cons x xs ih =>
    rw [sortBySceneId, List.foldr_cons]
    have hxs : sortBySceneId xs = xs := ih (List.Pairwise.sublist (by simp) h)
    rw [sortBySceneId] at hxs
    rw [hxs]
    refine insertStable_of_le x xs ?_
    intro y hy
    cases xs with
    | nil => simp at hy
    | cons z zs =>
      have hzy : z = y := by simpa using hy
      subst hzy
      exact (List.pairwise_cons.mp h).1 z (by simp)

theorem groupScenes_ne_nil (l : List SDoc) (hl : l ≠ []) :
    groupScenes l ≠ [] := by
  cases l with
  | nil => exact absurd rfl hl
  | cons d rest =>
    rw [groupScenes]
    cases groupScenes rest with
    | nil => simp [groupCons]
    | cons p gs =>
      obtain ⟨k, g⟩ := p
      rw [groupCons]
      by_cases hk : k = d.scene_id <;> simp [hk]

/-- The groups concatenate back to the grouped list: every line
belongs to exactly one group, in order.  -/
theorem groupScenes_flatMap (l : List SDoc) :
    (groupScenes l).flatMap (fun p => p.2) = l := by
  induction l with
  | nil => rfl
  | cons d rest ih =>
    rw [groupScenes]
    cases hg : groupScenes rest with
    | nil =>
      have : rest = [] := by
        by_contra hne
        exact groupScenes_ne_nil rest hne hg
      subst this
      simp [groupCons]
    | cons p gs =>
      obtain ⟨k, g⟩ := p
      rw [hg] at ih
      rw [groupCons]
      by_cases hk : k = d.scene_id
      · rw [if_pos hk]
        simp only [List.flatMap_cons] at ih ⊢
        rw [List.cons_append, ih]
      · rw [if_neg hk]
        simp only [List.flatMap_cons] at ih ⊢
        rw [List.singleton_append, ih]

/-- Each group is non-empty and carries the common scene id of its
members as its key.  -/
theorem groupScenes_mem (l : List SDoc) :
    ∀ k g, (k, g) ∈ groupScenes l →
      g ≠ [] ∧ ∀ d ∈ g, d.scene_id = k := by
  induction l with
  | nil => intro k g hg; exact absurd hg (by simp [groupScenes])
  | cons d rest ih =>
    intro k g hg
    rw [groupScenes] at hg
    cases hrest : groupScenes rest with
    | nil =>
      rw [hrest, groupCons] at hg
      simp only [List.mem_singleton, Prod.mk.injEq] at hg
      obtain ⟨hk, hgd⟩ := hg
      subst hgd
      refine ⟨by simp, ?_⟩
      intro x hx
      simp only [List.mem_singleton] at hx
      subst hx
      exact hk.symm
    | cons p gs =>
      obtain ⟨k0, g0⟩ := p
      rw [hrest, groupCons] at hg
      by_cases hk : k0 = d.scene_id
      · rw [if_pos hk] at hg
        rcases List.mem_cons.mp hg with hg | hg
        · simp only [Prod.mk.injEq] at hg
          obtain ⟨hk2, hgd⟩ := hg
          subst hgd
          refine ⟨by simp, ?_⟩
          intro x hx
          rcases List.mem_cons.mp hx with hx | hx
          · subst hx
            omega
          · have hmem : (k0, g0) ∈ groupScenes rest := by
              rw [hrest]; exact List.mem_cons_self _ _
            have := (ih k0 g0 hmem).2 x hx
            omega
        · refine ih k g ?_
          rw [hrest]
          exact List.mem_cons_of_mem _ hg
      · rw [if_neg hk] at hg
        rcases List.mem_cons.mp hg with hg | hg
        · simp only [Prod.mk.injEq] at hg
          obtain ⟨hk2, hgd⟩ := hg
          subst hgd
          refine ⟨by simp, ?_⟩
          intro x hx
          simp only [List.mem_singleton] at hx
          subst hx
          exact hk2.symm
        · refine ih k g ?_
          rw [hrest]
          exact hg

/-- The head group of a non-empty list is keyed by the scene id of
the head line.  -/
theorem groupScenes_head_key (d : SDoc) (rest : List SDoc) :
    ∃ g gs, groupScenes (d :: rest) = (d.scene_id, g) :: gs := by
  rw [groupScenes]
  cases groupScenes rest with
  | nil => exact ⟨[d], [], rfl⟩
  | cons p gs =>
    obtain ⟨k, g⟩ := p
    rw [groupCons]
    by_cases hk : k = d.scene_id
    · rw [if_pos hk]
      exact ⟨d :: g, gs, by rw [hk]⟩
    · rw [if_neg hk]
      exact ⟨[d], (k, g) :: gs, rfl⟩

/-- On a list ordered by scene id, the group keys strictly
increase.  -/
theorem groupScenes_keys_chain (l : List SDoc)
    (h : List.Chain' (fun a b => a.scene_id ≤ b.scene_id) l) :
    List.Chain' (fun a b => a < b) ((groupScenes l).map (fun p => p.1)) := by
  induction l with
  | nil => simp [groupScenes]
  | cons d rest ih =>
    rw [groupScenes]
    cases rest with
    | nil => simp [groupScenes, groupCons]
    | cons r rest2 =>
      have hdr : d.scene_id ≤ r.scene_id := (List.chain'_cons.mp h).1
      have htail : List.Chain' (fun a b => a.scene_id ≤ b.scene_id) (r :: rest2) :=
        (List.chain'_cons.mp h).2
      obtain ⟨g0, gs0, hg0⟩ := groupScenes_head_key r rest2
      rw [hg0, groupCons]
      have ihc := ih htail
      rw [hg0] at ihc
      by_cases hk : r.scene_id = d.scene_id
      · rw [if_pos hk]
        simp only [List.map_cons] at ihc ⊢
        exact ihc
      · rw [if_neg hk]
        simp only [List.map_cons] at ihc ⊢
        rw [List.chain'_cons]
        exact ⟨by omega, ihc⟩

/-!  Formatting lemmas: the per-scene speaker state.  -/

theorem formatBody_cons_character (cc : Option (List Char)) (d : SDoc)
    (rest : List SDoc) (h : d.doc.text_type = TextType.character) :
    formatBody cc (d :: rest) = formatBody (some d.doc.text) rest := by
  rw [formatBody, h]

theorem formatBody_cons_dialog (cc : Option (List Char)) (d : SDoc)
    (rest : List SDoc) (h : d.doc.text_type = TextType.dialog) :
    formatBody cc (d :: rest) =
      ccOr cc ++ ": ".toList ++ d.doc.text ++ '\n' :: formatBody cc rest := by
  rw [formatBody, h]

theorem formatBody_cons_description (cc : Option (List Char)) (d : SDoc)
    (rest : List SDoc) (h : d.doc.text_type = TextType.description) :
    formatBody cc (d :: rest) =
      "Scene description: ".toList ++ d.doc.text ++ '\n' :: formatBody cc rest := by
  rw [formatBody, h]

theorem formatBody_cons_location (cc : Option (List Char)) (d : SDoc)
    (rest : List SDoc) (h : d.doc.text_type = TextType.location) :
    formatBody cc (d :: rest) = formatBody cc rest := by
  rw [formatBody, h]

theorem formatBody_cons_raw (cc : Option (List Char)) (d : SDoc)
    (rest : List SDoc) (h : d.doc.text_type = TextType.raw) :
    formatBody cc (d :: rest) = formatBody cc rest := by
  rw [formatBody, h]

theorem charState_cons (cc : Option (List Char)) (d : SDoc) (rest : List SDoc) :
    charState cc (d :: rest) =
      if d.doc.text_type = TextType.character then charState (some d.doc.text) rest
      else charState cc rest := by
  rw [charState]

theorem formatBody_append (a b : List SDoc) :
    ∀ cc, formatBody cc (a ++ b) =
      formatBody cc a ++ formatBody (charState cc a) b := by
  induction a with
  | nil => intro cc; rfl
  | cons d rest ih =>
    intro cc
    rw [List.cons_append]
    cases htt : d.doc.text_type with
    | character =>
      rw [formatBody_cons_character _ _ _ htt,
        formatBody_cons_character _ _ _ htt, charState_cons, if_pos htt,
        ih (some d.doc.text)]
    | dialog =>
      rw [formatBody_cons_dialog _ _ _ htt, formatBody_cons_dialog _ _ _ htt,
        charState_cons, if_neg (by rw [htt]; exact fun hc => TextType.noConfusion hc),
        ih cc]
      simp [List.append_assoc]
    | description =>
      rw [formatBody_cons_description _ _ _ htt,
        formatBody_cons_description _ _ _ htt, charState_cons,
        if_neg (by rw [htt]; exact fun hc => TextType.noConfusion hc), ih cc]
      simp [List.append_assoc]
    | location =>
      rw [formatBody_cons_location _ _ _ htt, formatBody_cons_location _ _ _ htt,
        charState_cons,
        if_neg (by rw [htt]; exact fun hc => TextType.noConfusion hc), ih cc]
    | raw =>
      rw [formatBody_cons_raw _ _ _ htt, formatBody_cons_raw _ _ _ htt,
        charState_cons,
        if_neg (by rw [htt]; exact fun hc => TextType.noConfusion hc), ih cc]

theorem lastCharText_cons (d : SDoc) (rest : List SDoc) :
    lastCharText (d :: rest) =
      match lastCharText rest with
      | some t => some t
      | none =>
        if d.doc.text_type = TextType.character then some d.doc.text else none := by
  rw [lastCharText]

theorem charState_lastChar (l : List SDoc) :
    ∀ cc, charState cc l = (lastCharText l).elim cc some := by
  induction l with
  | nil => intro cc; rfl
  | cons d rest ih =>
    intro cc
    rw [charState_cons, lastCharText_cons]
    by_cases hc : d.doc.text_type = TextType.character
    · rw [if_pos hc, if_pos hc, ih (some d.doc.text)]
      cases hlast : lastCharText rest with
      | some t => rfl
      | none => rfl
    · rw [if_neg hc, if_neg hc, ih cc]
      cases hlast : lastCharText rest with
      | some t => rfl
      | none => rfl

theorem charState_none_eq (l : List SDoc) :
    charState none l = lastCharText l := by
  rw [charState_lastChar]
  cases lastCharText l <;> rfl

/-!  Minimum and maximum of the page list.  -/

theorem foldl_min_le (ps : List Nat) :
    ∀ p, ps.foldl Nat.min p ≤ p ∧ ∀ q ∈ ps, ps.foldl Nat.min p ≤ q := by
  induction ps with
  | nil => intro p; exact ⟨Nat.le_refl p, by simp⟩
  | cons q qs ih =>
    intro p
    rw [List.foldl_cons]
    obtain ⟨h1, h2⟩ := ih (Nat.min p q)
    have hmp : Nat.min p q ≤ p := Nat.min_le_left p q
    have hmq : Nat.min p q ≤ q := Nat.min_le_right p q
    refine ⟨Nat.le_trans h1 hmp, ?_⟩
    intro r hr
    rcases List.mem_cons.mp hr with hr | hr
    · subst hr; exact Nat.le_trans h1 hmq
    · exact h2 r hr

theorem foldl_min_mem (ps : List Nat) :
    ∀ p, ps.foldl Nat.min p = p ∨ ps.foldl Nat.min p ∈ ps := by
  induction ps with
  | nil => intro p; exact Or.inl rfl
  | cons q qs ih =>
    intro p
    rw [List.foldl_cons]
    rcases ih (Nat.min p q) with h | h
    · by_cases hpq : p ≤ q
      · have h2 : Nat.min p q = p := min_eq_left hpq
        exact Or.inl (by rw [h, h2])
      · have h2 : Nat.min p q = q := min_eq_right (by omega)
        exact Or.inr (by rw [h, h2]; simp)
    · exact Or.inr (List.mem_cons_of_mem _ h)

theorem foldl_max_ge (ps : List Nat) :
    ∀ p, p ≤ ps.foldl Nat.max p ∧ ∀ q ∈ ps, q ≤ ps.foldl Nat.max p := by
  induction ps with
  | nil => intro p; exact ⟨Nat.le_refl p, by simp⟩
  | cons q qs ih =>
    intro p
    rw [List.foldl_cons]
    obtain ⟨h1, h2⟩ := ih (Nat.max p q)
    have hmp : p ≤ Nat.max p q := Nat.le_max_left p q
    have hmq : q ≤ Nat.max p q := Nat.le_max_right p q
    refine ⟨Nat.le_trans hmp h1, ?_⟩
    intro r hr
    rcases List.mem_cons.mp hr with hr | hr
    · subst hr; exact Nat.le_trans hmq h1
    · exact h2 r hr

theorem foldl_max_mem (ps : List Nat) :
    ∀ p, ps.foldl Nat.max p = p ∨ ps.foldl Nat.max p ∈ ps := by
  induction ps with
  | nil => intro p; exact Or.inl rfl
  | cons q qs ih =>
    intro p
    rw [List.foldl_cons]
    rcases ih (Nat.max p q) with h | h
    · by_cases hpq : p ≤ q
      · have h2 : Nat.max p q = q := max_eq_right hpq
        exact Or.inr (by rw [h, h2]; simp)
      · have h2 : Nat.max p q = p := max_eq_left (by omega)
        exact Or.inl (by rw [h, h2])
    · exact Or.inr (List.mem_cons_of_mem _ h)

/-!  Glue: from chunks back to kept lines.  -/

/-- The assignment output is already ordered by scene id, so the
stable sort is the identity on it.  -/
theorem sortBySceneId_docsWithSceneId (docs : List ScriptDoc)
    (h : ∀ d ∈ docs, d.text ≠ []) :
    sortBySceneId (docsWithSceneId docs) = docsWithSceneId docs := by
  refine sortBySceneId_id _ ?_
  have hp : List.Pairwise (fun a b => a ≤ b)
      ((docsWithSceneId docs).map fun x => x.scene_id) := by
    rw [docsWithSceneId_ids docs h]
    exact List.pairwise_map.mpr (keptLines_pairwise docs 0 false)
  exact List.pairwise_map.mp hp

theorem loadDocumentsAgg_eq (docs : List ScriptDoc)
    (h : ∀ d ∈ docs, d.text ≠ []) :
    loadDocumentsAgg docs =
      (groupScenes (docsWithSceneId docs)).map mkChunk := by
  unfold loadDocumentsAgg
  rw [sortBySceneId_docsWithSceneId docs h]

theorem mkChunk_scene_number (p : Nat × List SDoc) :
    (mkChunk p).scene_number = p.1 := rfl

theorem mkChunk_page_start (p : Nat × List SDoc) :
    (mkChunk p).page_start = listMinD (pageList p.2) := rfl

theorem mkChunk_page_end (p : Nat × List SDoc) :
    (mkChunk p).page_end = listMaxD (pageList p.2) := rfl

/-- A member of a group of the grouped assignment output is an
assignment output line.  -/
theorem group_member_docsWithSceneId {docs : List ScriptDoc} {k : Nat}
    {g : List SDoc} {x : SDoc}
    (hkg : (k, g) ∈ groupScenes (docsWithSceneId docs)) (hx : x ∈ g) :
    x ∈ docsWithSceneId docs := by
  rw [← groupScenes_flatMap (docsWithSceneId docs)]
  exact List.mem_flatMap.mpr ⟨(k, g), hkg, hx⟩

/-- A member of the assignment output yields a kept pair of the
reference fold.  -/
theorem docsWithSceneId_mem_kept {docs : List ScriptDoc} {x : SDoc}
    (h : ∀ d ∈ docs, d.text ≠ []) (hx : x ∈ docsWithSceneId docs) :
    (x.doc, x.scene_id) ∈ keptLines docs 0 false := by
  rw [← docsWithSceneId_pairs docs h]
  exact List.mem_map.mpr ⟨x, hx, rfl⟩

/-- Every chunk comes from a group of the assignment output.  -/
theorem chunk_from_group {docs : List ScriptDoc} {c : SceneChunk}
    (h : ∀ d ∈ docs, d.text ≠ []) (hc : c ∈ loadDocumentsAgg docs) :
    ∃ k g, (k, g) ∈ groupScenes (docsWithSceneId docs) ∧ c = mkChunk (k, g) := by
  rw [loadDocumentsAgg_eq docs h] at hc
  obtain ⟨p, hp, hcp⟩ := List.mem_map.mp hc
  exact ⟨p.1, p.2, by simpa using hp, hcp.symm⟩

/-- The scene numbers of the emitted chunks are the group keys.  -/
theorem chunk_scene_numbers (docs : List ScriptDoc)
    (h : ∀ d ∈ docs, d.text ≠ []) :
    (loadDocumentsAgg docs).map (fun c => c.scene_number) =
      (groupScenes (docsWithSceneId docs)).map (fun p => p.1) := by
  rw [loadDocumentsAgg_eq docs h, List.map_map]
  rfl

theorem docsWithSceneId_pairwise (docs : List ScriptDoc)
    (h : ∀ d ∈ docs, d.text ≠ []) :
    List.Pairwise (fun a b => a.scene_id ≤ b.scene_id)
      (docsWithSceneId docs) := by
  have hp : List.Pairwise (fun a b => a ≤ b)
      ((docsWithSceneId docs).map fun x => x.scene_id) := by
    rw [docsWithSceneId_ids docs h]
    exact List.pairwise_map.mpr (keptLines_pairwise docs 0 false)
  exact List.pairwise_map.mp hp

/-!  Claim theorems for the scene aggregator.  -/

/-- C5, confirmed: chunk scene numbers strictly increase in document
order, and every chunk's scene number is the number of location
lines up to and including the location line that opened it, so each
location line advances the numbering by exactly one; the closed
conjunct shows two locations with identical text still open distinct
scenes numbered 1 and 2.  -/
theorem C5_scene_monotonic :
    (∀ docs : List ScriptDoc, (∀ d ∈ docs, d.text ≠ []) →
      List.Chain' (fun a b => a < b)
        ((loadDocumentsAgg docs).map fun c => c.scene_number) ∧
      ∀ c ∈ loadDocumentsAgg docs, 1 ≤ c.scene_number ∧
        ∃ a L b, docs = a ++ L :: b ∧ L.text_type = TextType.location ∧
          c.scene_number = countLoc a + 1) ∧
    (loadDocumentsAgg exRepeatLoc).map (fun c => (c.scene_number, c.location)) =
      [(1, "A".toList), (2, "A".toList)] := by
  constructor
  · intro docs h
    constructor
    · rw [chunk_scene_numbers docs h]
      exact groupScenes_keys_chain _ (docsWithSceneId_pairwise docs h).chain'
    · intro c hc
      obtain ⟨k, g, hkg, hck⟩ := chunk_from_group h hc
      obtain ⟨hgne, hgid⟩ := groupScenes_mem _ k g hkg
      cases g with
      | nil => exact absurd rfl hgne
      | cons x g2 =>
        have hx : x ∈ x :: g2 := by simp
        have hpair := docsWithSceneId_mem_kept h
          (group_member_docsWithSceneId hkg hx)
        obtain ⟨a, L, b, hab, hL, hid⟩ := keptLines_ids_false docs 0 _ hpair
        have hxk : x.scene_id = k := hgid x hx
        have hcs : c.scene_number = k := by rw [hck, mkChunk_scene_number]
        simp only at hid
        exact ⟨by omega, a, L, b, hab, hL, by omega⟩
  · decide

/-- C5, witness: the strict monotonicity and per-location numbering
at the repeated-location input.  -/
theorem C5_witness :
    List.Chain' (fun a b => a < b)
      ((loadDocumentsAgg exRepeatLoc).map fun c => c.scene_number) ∧
    ∀ c ∈ loadDocumentsAgg exRepeatLoc, 1 ≤ c.scene_number ∧
      ∃ a L b, exRepeatLoc = a ++ L :: b ∧
        L.text_type = TextType.location ∧
        c.scene_number = countLoc a + 1 :=
  C5_scene_monotonic.1 exRepeatLoc (by decide)

/-- C6, counterexample.  A location line on page 1 followed by a
single dialog line on page 2 yields one chunk with page range 2 to
2: the location line is removed before grouping, so its page number
does not count toward the range, contradicting the claim that
page_start would be 1.  -/
theorem C6_counterexample :
    (loadDocumentsAgg exPageRange).map (fun c => (c.page_start, c.page_end)) =
      [((2 : Int), (2 : Int))] ∧ ((2 : Int) ≠ (1 : Int)) := by
  refine ⟨by decide, by decide⟩

/-- C6, amended: for every emitted chunk, page_start and page_end are
the minimum and maximum page number over the lines grouped into that
scene, which are exactly its non-location lines; the scene's
location line is excluded before grouping, so its page number does
not count toward the range.  -/
theorem C6_page_range :
    ∀ docs : List ScriptDoc, (∀ d ∈ docs, d.text ≠ []) →
      ∀ c ∈ loadDocumentsAgg docs, ∃ k g,
        (k, g) ∈ groupScenes (docsWithSceneId docs) ∧ c = mkChunk (k, g) ∧
        g ≠ [] ∧
        (∀ x ∈ g, x.doc.text_type ≠ TextType.location ∧
          c.page_start ≤ Int.ofNat x.doc.page_number ∧
          Int.ofNat x.doc.page_number ≤ c.page_end) ∧
        (∃ x ∈ g, Int.ofNat x.doc.page_number = c.page_start) ∧
        (∃ x ∈ g, Int.ofNat x.doc.page_number = c.page_end) := by
  intro docs h c hc
  obtain ⟨k, g, hkg, hck⟩ := chunk_from_group h hc
  obtain ⟨hgne, _⟩ := groupScenes_mem _ k g hkg
  cases g with
  | nil => exact absurd rfl hgne
  | cons x0 g2 =>
    have hps : c.page_start =
        Int.ofNat ((pageList g2).foldl Nat.min x0.doc.page_number) := by
      rw [hck, mkChunk_page_start]
      rfl
    have hpe : c.page_end =
        Int.ofNat ((pageList g2).foldl Nat.max x0.doc.page_number) := by
      rw [hck, mkChunk_page_end]
      rfl
    refine ⟨k, x0 :: g2, hkg, hck, hgne, ?_, ?_, ?_⟩
    · intro x hx
      refine ⟨?_, ?_, ?_⟩
      · exact keptLines_not_loc docs 0 false _
          (docsWithSceneId_mem_kept h (group_member_docsWithSceneId hkg hx))
      · rw [hps]
        refine Int.ofNat_le.mpr ?_
        obtain ⟨h1, h2⟩ := foldl_min_le (pageList g2) x0.doc.page_number
        rcases List.mem_cons.mp hx with hx | hx
        · subst hx; exact h1
        · exact h2 _ (List.mem_map.mpr ⟨x, hx, rfl⟩)
      · rw [hpe]
        refine Int.ofNat_le.mpr ?_
        obtain ⟨h1, h2⟩ := foldl_max_ge (pageList g2) x0.doc.page_number
        rcases List.mem_cons.mp hx with hx | hx
        · subst hx; exact h1
        · exact h2 _ (List.mem_map.mpr ⟨x, hx, rfl⟩)
    · rcases foldl_min_mem (pageList g2) x0.doc.page_number with he | he
      · exact ⟨x0, by simp, by rw [hps, he]⟩
      · obtain ⟨y, hy, hyp⟩ := List.mem_map.mp he
        exact ⟨y, List.mem_cons_of_mem _ hy, by rw [hps, ← hyp]⟩
    · rcases foldl_max_mem (pageList g2) x0.doc.page_number with he | he
      · exact ⟨x0, by simp, by rw [hpe, he]⟩
      · obtain ⟨y, hy, hyp⟩ := List.mem_map.mp he
        exact ⟨y, List.mem_cons_of_mem _ hy, by rw [hpe, ← hyp]⟩

/-- C6, witness: the amended statement instantiated at the concrete
input whose only body line sits on page 2.  -/
theorem C6_witness :
    ∃ k g, (k, g) ∈ groupScenes (docsWithSceneId exPageRange) ∧
      (loadDocumentsAgg exPageRange).headD (mkChunk (0, [])) = mkChunk (k, g) ∧
      g ≠ [] ∧
      (∀ x ∈ g, x.doc.text_type ≠ TextType.location ∧
        ((loadDocumentsAgg exPageRange).headD (mkChunk (0, []))).page_start ≤
          Int.ofNat x.doc.page_number ∧
        Int.ofNat x.doc.page_number ≤
          ((loadDocumentsAgg exPageRange).headD (mkChunk (0, []))).page_end) ∧
      (∃ x ∈ g, Int.ofNat x.doc.page_number =
        ((loadDocumentsAgg exPageRange).headD (mkChunk (0, []))).page_start) ∧
      (∃ x ∈ g, Int.ofNat x.doc.page_number =
        ((loadDocumentsAgg exPageRange).headD (mkChunk (0, []))).page_end) :=
  C6_page_range exPageRange (by decide)
    ((loadDocumentsAgg exPageRange).headD (mkChunk (0, []))) (by decide)

/-- C7, counterexample.  A speaker cue in scene 1 does not carry into
scene 2: the second scene opens with a dialog line and is rendered
with Unknown although a character line occurred earlier in the
document, because _format_scene_content starts with an unset speaker
on every call, one call per scene.  -/
theorem C7_counterexample :
    (loadDocumentsAgg exCrossScene).map (fun c => c.text) =
      ["Location: A\nBO: HI".toList, "Location: B\nUnknown: YO".toList] ∧
    ¬ ((loadDocumentsAgg exCrossScene).map (fun c => c.text) =
      ["Location: A\nBO: HI".toList, "Location: B\nBO: YO".toList]) := by
  refine ⟨by decide, by decide⟩

/-- C7, amended: within one scene, a dialog line is rendered as
"<speaker>: <text>" where the speaker is the text of the most recent
character line earlier in the same scene, and Unknown when no
character line precedes the dialog in that scene — the speaker state
is reset at every scene boundary, so a character cue from an earlier
scene is never used.  -/
theorem C7_dialog_attribution (loc : List Char) (g1 : List SDoc) (d : SDoc)
    (g2 : List SDoc) (hd : d.doc.text_type = TextType.dialog) :
    formatSceneContent (g1 ++ d :: g2) loc =
      pyStrip ("Location: ".toList ++ loc ++ '\n' ::
        (formatBody none g1 ++ (ccOr (lastCharText g1) ++ ": ".toList ++
          d.doc.text ++ '\n' :: formatBody (lastCharText g1) g2))) ∧
    (lastCharText g1 = none → ccOr (lastCharText g1) = "Unknown".toList) ∧
    (∀ t, lastCharText g1 = some t → t ≠ [] →
      ccOr (lastCharText g1) = t) := by
  refine ⟨?_, ?_, ?_⟩
  · rw [formatSceneContent, formatBody_append g1 (d :: g2) none,
      formatBody_cons_dialog _ _ _ hd, charState_none_eq]
  · intro he
    rw [he]
    rfl
  · intro t ht htn
    rw [ht, ccOr, ne_nil_isEmpty_false htn]
    rfl

/-- C7, witness: a scene that opens with dialog and contains no
character line renders the dialog with Unknown.  -/
theorem C7_witness :
    formatSceneContent
      [{ doc := { text := "YO".toList, text_type := TextType.dialog,
                  page_number := 1 },
         location := "B".toList, scene_id := 2 }] ("B".toList) =
      "Location: B\nUnknown: YO".toList := by
  have h := (C7_dialog_attribution ("B".toList) []
    { doc := { text := "YO".toList, text_type := TextType.dialog,
               page_number := 1 },
      location := "B".toList, scene_id := 2 } [] rfl).1
  simp only [List.nil_append] at h
  rw [h]
  decide

/-- C8, confirmed: the kept line list is exactly the non-location
lines from the first location line on (so dialog, description and
raw lines before the first location are dropped and all others are
kept, each exactly once and in order), the stable sort leaves that
list unchanged, the groups partition it, and the emitted chunks are
exactly the groups, so every kept line belongs to exactly one
chunk.  -/
theorem C8_coverage :
    ∀ docs : List ScriptDoc, (∀ d ∈ docs, d.text ≠ []) →
      sortBySceneId (docsWithSceneId docs) = docsWithSceneId docs ∧
      (groupScenes (docsWithSceneId docs)).flatMap (fun p => p.2) =
        docsWithSceneId docs ∧
      (docsWithSceneId docs).map (fun x => x.doc) =
        (docs.dropWhile
          (fun d => !decide (d.text_type = TextType.location))).filter
          (fun d => !decide (d.text_type = TextType.location)) ∧
      loadDocumentsAgg docs =
        (groupScenes (docsWithSceneId docs)).map mkChunk := by
  intro docs h
  refine ⟨sortBySceneId_docsWithSceneId docs h, groupScenes_flatMap _, ?_,
    loadDocumentsAgg_eq docs h⟩
  rw [docsWithSceneId_docs docs h]
  exact keptLines_map_fst_false docs 0

/-- C8, witness: the coverage equalities at a concrete two-scene
input.  -/
theorem C8_witness :
    sortBySceneId (docsWithSceneId exCrossScene) = docsWithSceneId exCrossScene ∧
    (groupScenes (docsWithSceneId exCrossScene)).flatMap (fun p => p.2) =
      docsWithSceneId exCrossScene ∧
    (docsWithSceneId exCrossScene).map (fun x => x.doc) =
      (exCrossScene.dropWhile
        (fun d => !decide (d.text_type = TextType.location))).filter
        (fun d => !decide (d.text_type = TextType.location)) ∧
    loadDocumentsAgg exCrossScene =
      (groupScenes (docsWithSceneId exCrossScene)).map mkChunk :=
  C8_coverage exCrossScene (by decide)

/-- C10, confirmed: a location line followed by another location line
with nothing but location lines between them yields no chunk with
its scene number (the counter still advances past it, so emitted
scene numbers can skip values, as the witness shows on a concrete
input whose only emitted scene number is 2).  -/
theorem C10_empty_scene_dropped :
    ∀ (docs pre mid post : List ScriptDoc) (L1 L2 : ScriptDoc),
      (∀ d ∈ docs, d.text ≠ []) →
      docs = pre ++ L1 :: (mid ++ L2 :: post) →
      L1.text_type = TextType.location →
      L2.text_type = TextType.location →
      (∀ d ∈ mid, d.text_type = TextType.location) →
      ∀ c ∈ loadDocumentsAgg docs, c.scene_number ≠ countLoc pre + 1 := by
  intro docs pre mid post L1 L2 h hdecomp hL1 hL2 hmid c hc
  obtain ⟨k, g, hkg, hck⟩ := chunk_from_group h hc
  obtain ⟨hgne, hgid⟩ := groupScenes_mem _ k g hkg
  cases g with
  | nil => exact absurd rfl hgne
  | cons x g2 =>
    have hx : x ∈ x :: g2 := by simp
    have hpair := docsWithSceneId_mem_kept h
      (group_member_docsWithSceneId hkg hx)
    have hxk : x.scene_id = k := hgid x hx
    have hcs : c.scene_number = k := by rw [hck, mkChunk_scene_number]
    subst hdecomp
    rw [keptLines_append] at hpair
    rcases List.mem_append.mp hpair with hp | hp
    · have hb := (keptLines_bounds pre 0 false _ hp).2
      simp only at hb
      omega
    · rw [keptLines, if_pos hL1, keptLines_append] at hp
      rcases List.mem_append.mp hp with hp2 | hp2
      · rw [keptLines_all_loc mid hmid] at hp2
        exact absurd hp2 (by simp)
      · rw [keptLines, if_pos hL2] at hp2
        have hb := (keptLines_bounds post _ true _ hp2).1
        simp only at hb
        omega

/-- C10, witness: two adjacent locations followed by one dialog line
emit a single chunk numbered 2, skipping scene number 1.  -/
theorem C10_witness :
    (loadDocumentsAgg exEmptyScene).map (fun c => c.scene_number) = [2] ∧
    ((loadDocumentsAgg exEmptyScene).headD (mkChunk (0, []))).scene_number ≠
      countLoc ([] : List ScriptDoc) + 1 := by
  refine ⟨by decide, ?_⟩
  refine C10_empty_scene_dropped exEmptyScene [] []
    [{ text := "X".toList, text_type := TextType.dialog, page_number := 1 }]
    { text := "A".toList, text_type := TextType.location, page_number := 1 }
    { text := "B".toList, text_type := TextType.location, page_number := 1 }
    (by decide) (by decide) (by decide) (by decide) (by decide) _ (by decide)
